import Mathlib

/-!
Verification of the debtor-report extraction core of the
`debtor-reminder-app` repository.

The extraction engine turns the text lines of an aged-debtors report into
structured debtor records.  The repository ships the engine's behaviour in
`PARSER_USAGE_GUIDE.md` and the backend documentation; the medical-aid
classifier appears as source in the backend helper section.  The
definitions below embed those components: the line classifier, the name
cleaner, the numeric field parser, the contact resolver, the medical-aid
classifier and the record assembler.
-/

namespace DebtorApp

/-- A whitespace tokenizer over character lists.  `acc` holds the current
word reversed.  Mirrors splitting a report line on runs of whitespace. -/
def wordsAux : List Char → List Char → List (List Char)
  | [], acc => if acc = [] then [] else [acc.reverse]
  | c :: cs, acc =>
    if c.isWhitespace then
      if acc = [] then wordsAux cs [] else acc.reverse :: wordsAux cs []
    else
      wordsAux cs (c :: acc)

/-- Split a character list into whitespace-separated words. -/
def splitWords (cs : List Char) : List (List Char) :=
  wordsAux cs []

/-- Join words with single spaces (whitespace collapse and trim). -/
def joinWithSpace : List (List Char) → List Char
  | [] => []
  | [t] => t
  | t :: ts => t ++ ' ' :: joinWithSpace ts

/-- Modelled from the spec: the fixed honorific list of the Name Cleaner
(`PDF_PARSER_COMPLETE.py` is not in the repository snapshot; the list is
stated in the parsing-logic documentation). -/
def honorifics : List String :=
  ["MR", "MRS", "MISS", "MS", "DR", "PROF", "MEV", "MNR", "ME"]

/-- A token is an honorific when its uppercased form equals one of the
fixed honorific words (whole-word, case-insensitive matching). -/
def isHonorific (t : List Char) : Bool :=
  honorifics.any (fun h => t.map Char.toUpper == h.data)

/-- Modelled from the spec: the token pipeline of the Name Cleaner of the
missing `PDF_PARSER_COMPLETE.py` — drop honorific whole words
case-insensitively, remove digit characters, drop tokens left empty. -/
def cleanTokens (cs : List Char) : List (List Char) :=
  (((splitWords cs).filter (fun t => !(isHonorific t))).map
      (fun t => t.filter (fun c => !c.isDigit))).filter
    (fun t => !t.isEmpty)

/-- The Name Cleaner on character lists: clean the tokens, then join them
with single spaces (whitespace collapse and trim). -/
def cleanNameL (cs : List Char) : List Char :=
  joinWithSpace (cleanTokens cs)

/-- The Name Cleaner on strings. -/
def cleanName (s : String) : String :=
  String.mk (cleanNameL s.data)

/-- Modelled from the spec: the Line Classifier of the missing
`PDF_PARSER_COMPLETE.py` — pattern `^\d{6}\s`: six decimal digits then a
whitespace character. -/
def accStartL : List Char → Bool
  | a :: b :: c :: d :: e :: f :: w :: _ =>
    a.isDigit && b.isDigit && c.isDigit && d.isDigit && e.isDigit &&
      f.isDigit && w.isWhitespace
  | _ => false

/-- The Line Classifier: does a line begin a new account record? -/
def isAccountStartLine (line : String) : Bool :=
  accStartL line.data

/-- Length of the leading run of decimal digits of a line. -/
def leadingDigitCount (line : String) : Nat :=
  (line.data.takeWhile Char.isDigit).length

/-- Numeric value of a digit string (most significant first). -/
def natOfDigits (cs : List Char) : Nat :=
  cs.foldl (fun n c => 10 * n + (c.toNat - 48)) 0

/-- Modelled from the spec: unsigned decimal parsing used by the Numeric
Field Parser of the missing `PDF_PARSER_COMPLETE.py` — an integer part, an
optional dot and fraction part; anything else is unparseable. -/
def parseUnsignedDec (cs : List Char) : Option ℚ :=
  match cs.drop ((cs.takeWhile Char.isDigit).length) with
  | [] =>
    if (cs.takeWhile Char.isDigit).isEmpty then none
    else some (natOfDigits (cs.takeWhile Char.isDigit))
  | '.' :: fp =>
    if fp.all Char.isDigit && !((cs.takeWhile Char.isDigit).isEmpty && fp.isEmpty) then
      some ((natOfDigits (cs.takeWhile Char.isDigit) : ℚ) +
        (natOfDigits fp : ℚ) / (10 : ℚ) ^ fp.length)
    else none
  | _ => none

/-- Signed decimal parsing: an optional leading minus sign. -/
def parseDecimal (cs : List Char) : Option ℚ :=
  match cs with
  | '-' :: rest => (parseUnsignedDec rest).map (fun q => -q)
  | _ => parseUnsignedDec cs

/-- Remove thousands-separator commas from a token. -/
def stripCommas (cs : List Char) : List Char :=
  cs.filter (fun c => !(c == ','))

/-- Parse one monetary token: strip commas, parse as decimal, default to
0.0 when unparseable. -/
def parseMoney (t : List Char) : ℚ :=
  (parseDecimal (stripCommas t)).getD 0

/-- The monetary value of the `i`-th token, 0 when the token is missing. -/
def tokenValue (toks : List (List Char)) (i : Nat) : ℚ :=
  match toks[i]? with
  | some t => parseMoney t
  | none => 0

/-- The eight ageing figures of one account line. -/
structure AgeingFields where
  current : ℚ
  d30 : ℚ
  d60 : ℚ
  d90 : ℚ
  d120 : ℚ
  d150 : ℚ
  d180 : ℚ
  balance : ℚ
deriving DecidableEq, Repr

/-- Modelled from the spec: the Numeric Field Parser of the missing
`PDF_PARSER_COMPLETE.py` — eight whitespace-separated monetary tokens in
fixed order, commas stripped, unparseable or missing tokens default 0. -/
def parseNumericTail (s : String) : AgeingFields :=
  ⟨tokenValue (splitWords s.data) 0, tokenValue (splitWords s.data) 1,
    tokenValue (splitWords s.data) 2, tokenValue (splitWords s.data) 3,
    tokenValue (splitWords s.data) 4, tokenValue (splitWords s.data) 5,
    tokenValue (splitWords s.data) 6, tokenValue (splitWords s.data) 7⟩

/-- Word characters of the contact patterns (`\w`). -/
def isWordChar (c : Char) : Bool :=
  c.isAlphanum || c == '_'

/-- Characters allowed in the local and domain parts of an email
(`[\w\.-]`). -/
def isLocalChar (c : Char) : Bool :=
  isWordChar c || c == '.' || c == '-'

/-- Greedy search for `[\w\.-]*\.\w+` inside the domain run: prefer the
latest dot that is followed by at least one word character. -/
def domainSplit : List Char → Option (List Char)
  | [] => none
  | c :: rest =>
    match domainSplit rest with
    | some m => some (c :: m)
    | none =>
      if c == '.' then
        if (rest.takeWhile isWordChar).isEmpty then none
        else some ('.' :: rest.takeWhile isWordChar)
      else none

/-- Modelled from the spec: match the email shape
`[\w\.-]+@[\w\.-]+\.\w+` at the head of the character list. -/
def emailAt (cs : List Char) : Option (List Char) :=
  if (cs.takeWhile isLocalChar).isEmpty then none
  else
    match cs.drop ((cs.takeWhile isLocalChar).length) with
    | '@' :: r2 =>
      match r2.takeWhile isLocalChar with
      | [] => none
      | d0 :: drest =>
        match domainSplit drest with
        | some m => some ((cs.takeWhile isLocalChar) ++ '@' :: d0 :: m)
        | none => none
    | _ => none

/-- Leftmost email match inside a line. -/
def emailSearch : List Char → Option (List Char)
  | [] => none
  | c :: cs =>
    match emailAt (c :: cs) with
    | some m => some m
    | none => emailSearch cs

/-- First subscriber digit of a South African mobile number (`[6-8]`). -/
def isSubscriberStart (c : Char) : Bool :=
  c == '6' || c == '7' || c == '8'

/-- Modelled from the spec: match a South African phone shape
(`\+27[6-8]\d{8}` or `0[6-8]\d{8}`) at the head of the character list. -/
def phoneAt (cs : List Char) : Option (List Char) :=
  match cs with
  | '+' :: '2' :: '7' :: d :: rest =>
    if isSubscriberStart d && (rest.take 8).length == 8 &&
        (rest.take 8).all Char.isDigit then
      some ('+' :: '2' :: '7' :: d :: rest.take 8)
    else none
  | '0' :: d :: rest =>
    if isSubscriberStart d && (rest.take 8).length == 8 &&
        (rest.take 8).all Char.isDigit then
      some ('0' :: d :: rest.take 8)
    else none
  | _ => none

/-- Leftmost phone match inside a line. -/
def phoneSearch : List Char → Option (List Char)
  | [] => none
  | c :: cs =>
    match phoneAt (c :: cs) with
    | some m => some m
    | none => phoneSearch cs

/-- The fixed look-ahead depth of the Contact Resolver. -/
def lookAheadDepth : Nat := 4

/-- Modelled from the spec: the look-ahead window of the Contact Resolver
— the lines after the account line, cut at the look-ahead depth and at the
next account-start line, whichever comes first. -/
def contactWindow (lines : List String) (i depth : Nat) : List String :=
  ((lines.drop (i + 1)).take depth).takeWhile (fun l => !(isAccountStartLine l))

/-- The first match of a pattern inside the window, empty when absent. -/
def firstMatch (f : List Char → Option (List Char)) (w : List String) : String :=
  match w.findSome? (fun l => f l.data) with
  | some m => String.mk m
  | none => ""

/-- The Contact Resolver: email and phone for the account line at index
`i`, each defaulting to the empty string. -/
def resolveContact (lines : List String) (i depth : Nat) : String × String :=
  (firstMatch emailSearch (contactWindow lines i depth),
    firstMatch phoneSearch (contactWindow lines i depth))

/-- The medical-aid control-account pattern list of
`is_medical_aid_control_account` in the backend helper code. -/
def medical_aid_patterns : List String :=
  ["MEDAID CONTROL ACC", "MEDICAL AID CONTROL", "MEDICAL AID CONTROL ACCOUNT",
    "MED AID CONTROL", "MEDAID CONTROL", "MEDICAL AID ACC"]

/-- `containsSub p s` holds when `p` occurs as a contiguous substring of
`s` (Python's `in` on strings). -/
def containsSub (p : List Char) : List Char → Bool
  | [] => p.isEmpty
  | c :: t => p.isPrefixOf (c :: t) || containsSub p t

/-- Trim leading and trailing whitespace (Python's `strip`). -/
def trimChars (cs : List Char) : List Char :=
  ((cs.dropWhile Char.isWhitespace).reverse.dropWhile Char.isWhitespace).reverse

/-- The Medical-Aid Classifier, from `is_medical_aid_control_account` in
the backend helper code: a missing or empty name is not a control account;
otherwise the uppercased, trimmed name is tested for each pattern as a
substring. -/
def is_medical_aid_control_account (name : Option String) : Bool :=
  match name with
  | none => false
  | some s =>
    if s = "" then false
    else
      medical_aid_patterns.any
        (fun p => containsSub p.data (trimChars (s.data.map Char.toUpper)))

/-- One extracted debtor record, mirroring the documented DataFrame
columns of the extraction engine. -/
structure DebtorRecord where
  acc_no : String
  name : String
  current : ℚ
  d30 : ℚ
  d60 : ℚ
  d90 : ℚ
  d120 : ℚ
  d150 : ℚ
  d180 : ℚ
  balance : ℚ
  email : String
  phone : String
  is_medical_aid_control : Bool
deriving DecidableEq, Repr

/-- Split the tokens after the account number into the name segment and
the numeric tail: the numeric tail starts at the first token that parses
as a number (after comma stripping). -/
def splitNameNumeric : List (List Char) → List (List Char) × List (List Char)
  | [] => ([], [])
  | t :: ts =>
    if (parseDecimal (stripCommas t)).isSome then ([], t :: ts)
    else ((splitNameNumeric ts).1.cons t, (splitNameNumeric ts).2)

/-- The name segment tokens of an account line (after the 6-digit account
number, before the first numeric token). -/
def lineNameSegment (line : String) : List (List Char) :=
  (splitNameNumeric (splitWords (line.data.drop 6))).1

/-- The numeric tail tokens of an account line. -/
def lineNumericToks (line : String) : List (List Char) :=
  (splitNameNumeric (splitWords (line.data.drop 6))).2

/-- The cleaned name of an account line. -/
def lineName (line : String) : List Char :=
  cleanNameL (joinWithSpace (lineNameSegment line))

/-- Modelled from the spec: the per-line record builder of the Record
Assembler in the missing `PDF_PARSER_COMPLETE.py` — a candidate whose
cleaned name has no alphabetic character is rejected; otherwise the record
is assembled with the medical-aid flag derived from the cleaned name. -/
def buildRecord (lines : List String) (i : Nat) (line : String) : Option DebtorRecord :=
  if (lineName line).any Char.isAlpha then
    some
      { acc_no := String.mk (line.data.take 6)
        name := String.mk (lineName line)
        current := tokenValue (lineNumericToks line) 0
        d30 := tokenValue (lineNumericToks line) 1
        d60 := tokenValue (lineNumericToks line) 2
        d90 := tokenValue (lineNumericToks line) 3
        d120 := tokenValue (lineNumericToks line) 4
        d150 := tokenValue (lineNumericToks line) 5
        d180 := tokenValue (lineNumericToks line) 6
        balance := tokenValue (lineNumericToks line) 7
        email := (resolveContact lines i lookAheadDepth).1
        phone := (resolveContact lines i lookAheadDepth).2
        is_medical_aid_control :=
          is_medical_aid_control_account (some (String.mk (lineName line))) }
  else none

/-- Modelled from the spec: the Record Assembler — walk the line sequence
once, building one record per account-start line. -/
def extractRecords (lines : List String) : List DebtorRecord :=
  (List.range lines.length).filterMap (fun i =>
    if isAccountStartLine (lines.getD i "") then buildRecord lines i (lines.getD i "")
    else none)

/-- The document-level error of the extraction operation. -/
inductive DocumentError where
  | unreadable
deriving DecidableEq, Repr

/-- Modelled from the spec: the `extract` operation — an unreadable
document (modelled as a missing line sequence) fails with a
`DocumentError`; any materialized line sequence, including the empty one,
is extracted without error. -/
def extract (doc : Option (List String)) : Except DocumentError (List DebtorRecord) :=
  match doc with
  | none => Except.error DocumentError.unreadable
  | some lines => Except.ok (extractRecords lines)

/-- A one-line document whose single account is a medical-aid control
account. -/
def c1Lines : List String := ["100001 MEDAID CONTROL ACC 1 0 0 0 0 0 0 1"]

/-- The record extracted from `c1Lines`: flagged, not dropped. -/
def c1Record : DebtorRecord :=
  { acc_no := "100001", name := "MEDAID CONTROL ACC", current := 1, d30 := 0,
    d60 := 0, d90 := 0, d120 := 0, d150 := 0, d180 := 0, balance := 1,
    email := "", phone := "", is_medical_aid_control := true }

/-! ## Helper lemmas -/

/-- A whitespace character is never a decimal digit. -/
theorem ws_not_digit (c : Char) (h : c.isWhitespace = true) : c.isDigit = false := by
  simp only [Char.isWhitespace, Bool.or_eq_true, decide_eq_true_eq] at h
  rcases h with ((h | h) | h) | h <;> subst h <;> decide

/-- The Line Classifier accepts exactly the lines shaped as six digits
followed by one whitespace character. -/
theorem accStartL_iff (cs : List Char) :
    accStartL cs = true ↔ ∃ a b c d e f w rest,
      cs = a :: b :: c :: d :: e :: f :: w :: rest ∧ a.isDigit = true ∧
      b.isDigit = true ∧ c.isDigit = true ∧ d.isDigit = true ∧ e.isDigit = true ∧
      f.isDigit = true ∧ w.isWhitespace = true := by
  constructor
  · intro h
    rcases cs with _ | ⟨a, _ | ⟨b, _ | ⟨c, _ | ⟨d, _ | ⟨e, _ | ⟨f, _ | ⟨w, rest⟩⟩⟩⟩⟩⟩⟩ <;>
      simp only [accStartL, Bool.and_eq_true, Bool.false_eq_true] at h
    obtain ⟨⟨⟨⟨⟨⟨h1, h2⟩, h3⟩, h4⟩, h5⟩, h6⟩, h7⟩ := h
    exact ⟨a, b, c, d, e, f, w, rest, rfl, h1, h2, h3, h4, h5, h6, h7⟩
  · rintro ⟨a, b, c, d, e, f, w, rest, rfl, h1, h2, h3, h4, h5, h6, h7⟩
    simp [accStartL, h1, h2, h3, h4, h5, h6, h7]

/-- An accepted line has a leading digit run of length exactly six. -/
theorem accStartL_digit_run (cs : List Char) (h : accStartL cs = true) :
    (cs.takeWhile Char.isDigit).length = 6 := by
  rw [accStartL_iff] at h
  obtain ⟨a, b, c, d, e, f, w, rest, rfl, h1, h2, h3, h4, h5, h6, h7⟩ := h
  simp [List.takeWhile_cons, h1, h2, h3, h4, h5, h6, ws_not_digit w h7]

/-- `containsSub` is exactly substring occurrence. -/
theorem containsSub_iff (p s : List Char) :
    containsSub p s = true ↔ ∃ l r, s = l ++ p ++ r := by
  induction s with
  | nil =>
    simp only [containsSub, List.isEmpty_iff]
    constructor
    · rintro rfl
      exact ⟨[], [], rfl⟩
    · rintro ⟨l, r, h⟩
      rcases List.append_eq_nil.1 (List.append_eq_nil.1 h.symm).1 with ⟨-, hp⟩
      exact hp
  | cons c t ih =>
    simp only [containsSub, Bool.or_eq_true, ih]
    constructor
    · rintro (hpre | ⟨l, r, rfl⟩)
      · obtain ⟨r, hr⟩ := List.isPrefixOf_iff_prefix.1 hpre
        exact ⟨[], r, by simp [hr]⟩
      · exact ⟨c :: l, r, by simp⟩
    · rintro ⟨l, r, hs⟩
      cases l with
      | nil =>
        left
        refine List.isPrefixOf_iff_prefix.2 ⟨r, ?_⟩
        simpa using hs.symm
      | cons x l' =>
        right
        simp only [List.cons_append, List.cons.injEq] at hs
        exact ⟨l', r, hs.2⟩

/-- Pushing a whitespace-free block through the tokenizer extends the
accumulator. -/
theorem wordsAux_append (t : List Char) (cs acc : List Char)
    (ht : ∀ c ∈ t, c.isWhitespace = false) :
    wordsAux (t ++ cs) acc = wordsAux cs (t.reverse ++ acc) := by
  induction t generalizing acc with
  | nil => simp
  | cons c t ih =>
    have hc : c.isWhitespace = false := ht c (List.mem_cons_self c t)
    rw [List.cons_append, wordsAux, hc]
    simp only [Bool.false_eq_true, if_false]
    rw [ih (c :: acc) (fun x hx => ht x (List.mem_cons_of_mem c hx))]
    simp [List.append_assoc]

/-- Every token the tokenizer emits is nonempty and whitespace-free. -/
theorem wordsAux_tokens (cs : List Char) : ∀ acc,
    (∀ c ∈ acc, c.isWhitespace = false) →
    ∀ t ∈ wordsAux cs acc, t ≠ [] ∧ ∀ c ∈ t, c.isWhitespace = false := by
  induction cs with
  | nil =>
    intro acc hacc t ht
    rw [wordsAux] at ht
    by_cases ha : acc = []
    · rw [if_pos ha] at ht
      exact absurd ht (List.not_mem_nil t)
    · rw [if_neg ha] at ht
      rcases List.mem_singleton.1 ht with rfl
      exact ⟨by simpa using ha, fun c hc => hacc c (List.mem_reverse.1 hc)⟩
  | cons c cs ih =>
    intro acc hacc t ht
    rw [wordsAux] at ht
    by_cases hw : c.isWhitespace = true
    · rw [if_pos hw] at ht
      by_cases ha : acc = []
      · rw [if_pos ha] at ht
        exact ih [] (by simp) t ht
      · rw [if_neg ha] at ht
        rcases List.mem_cons.1 ht with rfl | ht'
        · exact ⟨by simpa using ha, fun x hx => hacc x (List.mem_reverse.1 hx)⟩
        · exact ih [] (by simp) t ht'
    · rw [if_neg hw] at ht
      refine ih (c :: acc) ?_ t ht
      intro x hx
      rcases List.mem_cons.1 hx with rfl | hx'
      · exact Bool.not_eq_true _ ▸ hw
      · exact hacc x hx'

/-- The tokenizer flushes a nonempty accumulator at the end of input. -/
theorem wordsAux_nil_flush (acc : List Char) (hacc : acc ≠ []) :
    wordsAux [] acc = [acc.reverse] := by
  rw [wordsAux, if_neg hacc]

/-- The tokenizer flushes a nonempty accumulator at a space. -/
theorem wordsAux_space_flush (cs acc : List Char) (hacc : acc ≠ []) :
    wordsAux (' ' :: cs) acc = acc.reverse :: wordsAux cs [] := by
  rw [wordsAux]
  rw [if_pos (by decide : (' ').isWhitespace = true)]
  rw [if_neg hacc]

/-- Splitting the space-joined form of nonempty whitespace-free tokens
recovers the tokens. -/
theorem splitWords_join (toks : List (List Char))
    (h : ∀ t ∈ toks, t ≠ [] ∧ ∀ c ∈ t, c.isWhitespace = false) :
    splitWords (joinWithSpace toks) = toks := by
  induction toks with
  | nil => rfl
  | cons t ts ih =>
    obtain ⟨hne, hws⟩ := h t (List.mem_cons_self t ts)
    have hrev : t.reverse ≠ [] := by simpa using hne
    cases ts with
    | nil =>
      show wordsAux (joinWithSpace [t]) [] = [t]
      rw [joinWithSpace]
      have he := wordsAux_append t [] [] hws
      rw [List.append_nil, List.append_nil] at he
      rw [he, wordsAux_nil_flush t.reverse hrev, List.reverse_reverse]
    | cons t2 ts2 =>
      show wordsAux (joinWithSpace (t :: t2 :: ts2)) [] = t :: t2 :: ts2
      rw [joinWithSpace]
      rw [wordsAux_append t _ [] hws, List.append_nil,
        wordsAux_space_flush _ t.reverse hrev, List.reverse_reverse]
      · exact congrArg (List.cons t) (ih (fun u hu => h u (List.mem_cons_of_mem t hu)))
      · exact List.cons_ne_nil t2 ts2

/-- Every token of a cleaned name is nonempty, whitespace-free and
digit-free. -/
theorem cleanTokens_facts (cs : List Char) :
    ∀ t ∈ cleanTokens cs,
      t ≠ [] ∧ (∀ c ∈ t, c.isWhitespace = false) ∧ ∀ c ∈ t, c.isDigit = false := by
  intro t ht
  rcases List.mem_filter.1 ht with ⟨ht2, hne⟩
  rcases List.mem_map.1 ht2 with ⟨u, hu, rfl⟩
  rcases List.mem_filter.1 hu with ⟨hu2, -⟩
  obtain ⟨-, hws⟩ := wordsAux_tokens cs [] (by simp) u hu2
  refine ⟨by simpa using hne, ?_, ?_⟩
  · exact fun c hc => hws c (List.mem_of_mem_filter hc)
  · intro c hc
    have := (List.mem_filter.1 hc).2
    simpa using this

/-- Splitting a cleaned name recovers exactly its token pipeline. -/
theorem splitWords_cleanNameL (cs : List Char) :
    splitWords (cleanNameL cs) = cleanTokens cs :=
  splitWords_join _ (fun t ht => ⟨(cleanTokens_facts cs t ht).1,
    (cleanTokens_facts cs t ht).2.1⟩)

/-! ## Claims -/

/-- C3: the Line Classifier returns true iff the line begins with exactly
six decimal digits immediately followed by a whitespace character; any
line whose leading digit run has length five or seven is rejected. -/
theorem line_classifier_sixdigit_spec (line : String) :
    (isAccountStartLine line = true ↔ ∃ a b c d e f w rest,
      line.data = a :: b :: c :: d :: e :: f :: w :: rest ∧ a.isDigit = true ∧
      b.isDigit = true ∧ c.isDigit = true ∧ d.isDigit = true ∧ e.isDigit = true ∧
      f.isDigit = true ∧ w.isWhitespace = true)
    ∧ (isAccountStartLine line = true → leadingDigitCount line = 6)
    ∧ (leadingDigitCount line = 5 → isAccountStartLine line = false)
    ∧ (leadingDigitCount line = 7 → isAccountStartLine line = false) := by
  have key : isAccountStartLine line = true → leadingDigitCount line = 6 :=
    fun h => accStartL_digit_run line.data h
  refine ⟨accStartL_iff line.data, key, ?_, ?_⟩ <;> intro h
  · cases hA : isAccountStartLine line
    · rfl
    · have h6 := key hA
      rw [h] at h6
      exact absurd h6 (by decide)
  · cases hA : isAccountStartLine line
    · rfl
    · have h6 := key hA
      rw [h] at h6
      exact absurd h6 (by decide)

/-- C3 witness: a five-digit line and a seven-digit line are rejected. -/
theorem line_classifier_sixdigit_check :
    isAccountStartLine "12345 X" = false ∧ isAccountStartLine "1234567 " = false :=
  ⟨(line_classifier_sixdigit_spec "12345 X").2.2.1 (by decide),
    (line_classifier_sixdigit_spec "1234567 ").2.2.2 (by decide)⟩

/-- C4: on the documented tail the Numeric Field Parser yields
current=1200, d30=0, d60=350.50, d90..d180=0, balance=1550.50, stripping
the thousands comma; unparseable or missing tokens default to 0. -/
theorem numeric_field_parser_spec :
    parseNumericTail "1,200.00 0.00 350.50 0 0 0 0 1550.50" =
      ⟨1200, 0, 701/2, 0, 0, 0, 0, 3101/2⟩
    ∧ parseNumericTail "1,200.00 junk 350.50" = ⟨1200, 0, 701/2, 0, 0, 0, 0, 0⟩ :=
  ⟨by with_unfolding_all rfl, by with_unfolding_all rfl⟩

/-- C5: the Name Cleaner strips honorific whole words case-insensitively,
removes numeric substrings and collapses whitespace; on
"MR JOHN SMITH 123" it yields "JOHN SMITH". -/
theorem name_cleaner_example_spec :
    cleanName "MR JOHN SMITH 123" = "JOHN SMITH"
    ∧ cleanName "mrs JANE   99 DOE" = "JANE DOE"
    ∧ cleanName " DR PROF A 7B " = "A B" := by decide

/-- C6: the Medical-Aid Classifier returns true iff the uppercased,
trimmed name contains one of the fixed control-account patterns as a
substring; it accepts "MEDAID CONTROL ACC" (also lower-cased, also as an
inner substring) and rejects "JOHN SMITH". -/
theorem medical_aid_classifier_spec (s : String) :
    (is_medical_aid_control_account (some s) = true ↔
      ∃ p ∈ medical_aid_patterns, ∃ l r,
        trimChars (s.data.map Char.toUpper) = l ++ p.data ++ r)
    ∧ is_medical_aid_control_account (some "MEDAID CONTROL ACC") = true
    ∧ is_medical_aid_control_account (some "JOHN SMITH") = false
    ∧ is_medical_aid_control_account (some "medaid control acc") = true
    ∧ is_medical_aid_control_account (some "X MEDAID CONTROL ACCX") = true := by
  refine ⟨?_, by decide, by decide, by decide, by decide⟩
  by_cases hs : s = ""
  · subst hs
    constructor
    · intro h
      exact absurd h (by decide)
    · rintro ⟨p, hp, l, r, h⟩
      have hnil : trimChars (("" : String).data.map Char.toUpper) = [] := rfl
      rw [hnil] at h
      rcases List.append_eq_nil.1 (List.append_eq_nil.1 h.symm).1 with ⟨-, hp0⟩
      fin_cases hp <;> exact absurd hp0 (by decide)
  · simp only [is_medical_aid_control_account, if_neg hs, List.any_eq_true]
    constructor
    · rintro ⟨p, hp, hcs⟩
      exact ⟨p, hp, (containsSub_iff _ _).1 hcs⟩
    · rintro ⟨p, hp, hlr⟩
      exact ⟨p, hp, (containsSub_iff _ _).2 hlr⟩

/-- C8: extraction fails with a document error exactly on the unreadable
document; every materialized line sequence, the empty one included, is
extracted without error. -/
theorem extract_document_error_spec :
    extract none = Except.error DocumentError.unreadable
    ∧ extract (some []) = Except.ok []
    ∧ ∀ lines : List String, extract (some lines) = Except.ok (extractRecords lines) :=
  ⟨rfl, rfl, fun _ => rfl⟩

/-- C9 counterexample: the Name Cleaner is not idempotent — digit removal
can create a fresh honorific token, which a second cleaning removes:
"MR1" cleans to "MR", which cleans to "". -/
theorem name_cleaner_not_idempotent :
    cleanName (cleanName "MR1") ≠ cleanName "MR1" := by decide

/-- C9 amended: the Name Cleaner is idempotent on every input whose
cleaned output contains no honorific token (digit removal can mint a
fresh honorific, the only obstruction). -/
theorem name_cleaner_idempotent_no_honorific (s : String)
    (h : ∀ t ∈ splitWords (cleanName s).data, isHonorific t = false) :
    cleanName (cleanName s) = cleanName s := by
  refine congrArg String.mk ?_
  show cleanNameL (cleanNameL s.data) = cleanNameL s.data
  have h' : ∀ t ∈ cleanTokens s.data, isHonorific t = false := by
    intro t ht
    refine h t ?_
    show t ∈ splitWords (cleanNameL s.data)
    rw [splitWords_cleanNameL s.data]
    exact ht
  have hct : cleanTokens (cleanNameL s.data) = cleanTokens s.data := by
    have e1 : (cleanTokens s.data).filter (fun t => !(isHonorific t)) =
        cleanTokens s.data :=
      List.filter_eq_self.2 (fun a ha => by rw [h' a ha]; rfl)
    have hmap : (cleanTokens s.data).map (fun t => t.filter fun c => !c.isDigit) =
        (cleanTokens s.data).map id := by
      refine List.map_congr_left ?_
      intro a ha
      show a.filter (fun c => !c.isDigit) = a
      refine List.filter_eq_self.2 ?_
      intro c hc
      rw [(cleanTokens_facts s.data a ha).2.2 c hc]
      rfl
    have e3 : (cleanTokens s.data).filter (fun t => !t.isEmpty) =
        cleanTokens s.data := by
      refine List.filter_eq_self.2 ?_
      intro a ha
      simpa using (cleanTokens_facts s.data a ha).1
    rw [cleanTokens, splitWords_cleanNameL s.data, e1, hmap, List.map_id, e3]
  show joinWithSpace (cleanTokens (cleanNameL s.data)) = cleanNameL s.data
  rw [hct]
  rfl

/-- C9 amended witness: an honorific-free cleaned output is a fixed point
of the cleaner. -/
theorem name_cleaner_idempotent_check :
    cleanName (cleanName "MR JOHN SMITH 123") = cleanName "MR JOHN SMITH 123" :=
  name_cleaner_idempotent_no_honorific "MR JOHN SMITH 123" (by decide)

/-- C1: every record the per-line builder assembles for an account-start
line appears in the extractor's output, with the medical-aid flag equal
to the classifier's verdict on its name — the extractor never drops a
record because the classifier returned true. -/
theorem extract_includes_medical_aid_records (lines : List String) (i : Nat)
    (hi : i < lines.length) (hstart : isAccountStartLine (lines.getD i "") = true)
    (r : DebtorRecord) (hr : buildRecord lines i (lines.getD i "") = some r) :
    r ∈ extractRecords lines ∧
      r.is_medical_aid_control = is_medical_aid_control_account (some r.name) := by
  constructor
  · rw [extractRecords]
    exact List.mem_filterMap.2 ⟨i, List.mem_range.2 hi, by rw [if_pos hstart]; exact hr⟩
  · simp only [buildRecord] at hr
    split at hr
    · cases hr
      rfl
    · cases hr

/-- C1 witness: the medical-aid control record of `c1Lines` is extracted
and flagged. -/
theorem extract_includes_medical_aid_check :
    c1Record ∈ extractRecords c1Lines ∧
      c1Record.is_medical_aid_control =
        is_medical_aid_control_account (some c1Record.name) :=
  extract_includes_medical_aid_records c1Lines 0 (by decide) (by decide) c1Record
    (by with_unfolding_all rfl)

/-- C2: the Contact Resolver window holds at most `d` lines, contains no
account-start line, consists exactly of the lines following index `i`,
never reaches past a later account-start line (so a later account's
contact details are never attributed to record `i`), and when no email or
no phone matches inside the window the resolved field is the empty
string. -/
theorem contact_resolver_window_spec (lines : List String) (i d : Nat) :
    (contactWindow lines i d).length ≤ d
    ∧ (∀ l ∈ contactWindow lines i d, isAccountStartLine l = false)
    ∧ (∀ m, m < (contactWindow lines i d).length →
        i + 1 + m < lines.length ∧
        (contactWindow lines i d).getD m "" = lines.getD (i + 1 + m) "")
    ∧ (∀ j, i < j → isAccountStartLine (lines.getD j "") = true →
        ∀ m, m < (contactWindow lines i d).length → i + 1 + m < j)
    ∧ ((∀ l ∈ contactWindow lines i d, emailSearch l.data = none) →
        (resolveContact lines i d).1 = "")
    ∧ ((∀ l ∈ contactWindow lines i d, phoneSearch l.data = none) →
        (resolveContact lines i d).2 = "") := by
  have hpre : contactWindow lines i d <+: (lines.drop (i + 1)).take d :=
    List.takeWhile_prefix _
  have hlen : (contactWindow lines i d).length ≤ d :=
    le_trans hpre.length_le (List.length_take_le d _)
  have hmem : ∀ l ∈ contactWindow lines i d, isAccountStartLine l = false := by
    intro l hl
    have hp := List.mem_takeWhile_imp hl
    simpa using hp
  have hidx : ∀ m, m < (contactWindow lines i d).length →
      i + 1 + m < lines.length ∧
      (contactWindow lines i d).getD m "" = lines.getD (i + 1 + m) "" := by
    intro m hm
    have hm2 : m < ((lines.drop (i + 1)).take d).length :=
      lt_of_lt_of_le hm hpre.length_le
    have hm3 : m < (lines.drop (i + 1)).length := by
      rw [List.length_take] at hm2
      exact lt_of_lt_of_le hm2 (min_le_right _ _)
    have hm4 : i + 1 + m < lines.length := by
      rw [List.length_drop] at hm3
      omega
    refine ⟨hm4, ?_⟩
    rw [List.getD_eq_getElem?_getD, List.getElem?_eq_getElem hm,
      List.getD_eq_getElem?_getD, List.getElem?_eq_getElem hm4]
    simp only [Option.getD_some]
    rw [hpre.getElem hm, List.getElem_take, List.getElem_drop]
  refine ⟨hlen, hmem, hidx, ?_, ?_, ?_⟩
  · intro j hij hj m hm
    by_contra hcon
    push_neg at hcon
    have hk : j - (i + 1) < (contactWindow lines i d).length := by omega
    obtain ⟨-, hEq⟩ := hidx _ hk
    have hjj : i + 1 + (j - (i + 1)) = j := by omega
    rw [hjj] at hEq
    have hmemk : (contactWindow lines i d).getD (j - (i + 1)) "" ∈
        contactWindow lines i d := by
      rw [List.getD_eq_getElem?_getD, List.getElem?_eq_getElem hk]
      simp only [Option.getD_some]
      exact List.getElem_mem hk
    have hfalse := hmem _ hmemk
    rw [hEq, hj] at hfalse
    exact absurd hfalse (by decide)
  · intro h
    simp only [resolveContact, firstMatch]
    rw [List.findSome?_eq_none_iff.2 h]
  · intro h
    simp only [resolveContact, firstMatch]
    rw [List.findSome?_eq_none_iff.2 h]

/-- C2 witness: a window with no contact lines resolves both fields to
the empty string. -/
theorem contact_resolver_window_check :
    (resolveContact ["100001 X", "no contact info", "nothing"] 0 4).1 = ""
    ∧ (resolveContact ["100001 X", "no contact info", "nothing"] 0 4).2 = "" :=
  ⟨(contact_resolver_window_spec ["100001 X", "no contact info", "nothing"] 0
      4).2.2.2.2.1 (by decide),
    (contact_resolver_window_spec ["100001 X", "no contact info", "nothing"] 0
      4).2.2.2.2.2 (by decide)⟩

/-- C7: a line matching the six-digit account pattern whose cleaned name
contains no alphabetic character yields no record, and extraction still
succeeds without raising. -/
theorem invalid_name_silent_skip (lines : List String) (i : Nat)
    (_hstart : isAccountStartLine (lines.getD i "") = true)
    (hname : (lineName (lines.getD i "")).any Char.isAlpha = false) :
    buildRecord lines i (lines.getD i "") = none ∧
      extract (some lines) = Except.ok (extractRecords lines) :=
  ⟨by unfold buildRecord; rw [if_neg]; rw [hname]; exact Bool.false_ne_true, rfl⟩

/-- C7 witness: an account-pattern line with an all-numeric name segment
is silently skipped. -/
theorem invalid_name_silent_skip_check :
    buildRecord ["123456 789 1.0 2"] 0 (["123456 789 1.0 2"].getD 0 "") = none ∧
      extract (some ["123456 789 1.0 2"]) =
        Except.ok (extractRecords ["123456 789 1.0 2"]) :=
  invalid_name_silent_skip ["123456 789 1.0 2"] 0 (by decide) (by decide)

/-- C10: the Medical-Aid Classifier is total on degenerate names — a
missing name and the empty name both classify as false. -/
theorem medical_aid_classifier_degenerate :
    is_medical_aid_control_account none = false
    ∧ is_medical_aid_control_account (some "") = false :=
  ⟨rfl, by decide⟩

end DebtorApp
